import Mathlib

/-!
Shallow embedding of the TBA match-data pipeline (`get_data.py`).

The embedding covers the parts of the source that the verified properties
are about:

* `process_score_breakdown` — flattening one alliance's score breakdown;
* `process_match` — turning one raw match mapping into 0 or 2 flat rows;
* the per-match loop of `fetch_event_matches` — error isolation around
  `process_match` (the HTTP/JSON-parse part of that function is an external
  collaborator and is not modelled);
* `reorder_columns` and `update_file` — the pandas-backed reconciliation
  of a new row batch into the persisted dataset.

Python/JSON values are modelled by the inductive `PyVal`; Python dicts are
association lists with string keys (every dict reaching this code comes from
parsed JSON), preserving insertion order exactly as CPython dicts do.
Python code that can raise is modelled in `Except PyErr`; the bare
`try/except` blocks of the source are modelled by total functions that
return `PyVal.none` on the failing branches, exactly the value the source
assigns in its `except:` handlers.
-/

/-- Python/JSON values as they occur in this pipeline.  `nan` models the
pandas missing-value marker that fills holes when frames with differing
columns are combined. -/
inductive PyVal where
  | none
  | nan
  | bool (b : Bool)
  | int (n : Int)
  | str (s : String)
  | list (xs : List PyVal)
  | dict (entries : List (String × PyVal))

-- Structural equality test on `PyVal` (automatic deriving is not available
-- for this nested inductive).
mutual

def PyVal.beq : PyVal → PyVal → Bool
  | .none, .none => true
  | .nan, .nan => true
  | .bool a, .bool b => a == b
  | .int a, .int b => a == b
  | .str a, .str b => a == b
  | .list a, .list b => PyVal.beqList a b
  | .dict a, .dict b => PyVal.beqEntries a b
  | _, _ => false

def PyVal.beqList : List PyVal → List PyVal → Bool
  | [], [] => true
  | a :: as, b :: bs => PyVal.beq a b && PyVal.beqList as bs
  | _, _ => false

def PyVal.beqEntries : List (String × PyVal) → List (String × PyVal) → Bool
  | [], [] => true
  | (k1, v1) :: as, (k2, v2) :: bs => k1 == k2 && PyVal.beq v1 v2 && PyVal.beqEntries as bs
  | _, _ => false

end

mutual

def PyVal.beq_sound : ∀ (a b : PyVal), PyVal.beq a b = true → a = b := by
  intro a b
  cases a <;> cases b <;> intro h <;> simp only [PyVal.beq, beq_iff_eq] at h <;>
    first
      | rfl
      | exact Bool.noConfusion h
      | (subst h; rfl)
      | exact congrArg PyVal.list (PyVal.beqList_sound _ _ h)
      | exact congrArg PyVal.dict (PyVal.beqEntries_sound _ _ h)

def PyVal.beqList_sound : ∀ (xs ys : List PyVal), PyVal.beqList xs ys = true → xs = ys
  | [], [], _ => rfl
  | [], _ :: _, h => by simp [PyVal.beqList] at h
  | _ :: _, [], h => by simp [PyVal.beqList] at h
  | x :: xs, y :: ys, h => by
    simp only [PyVal.beqList, Bool.and_eq_true] at h
    rw [PyVal.beq_sound x y h.1, PyVal.beqList_sound xs ys h.2]

def PyVal.beqEntries_sound :
    ∀ (xs ys : List (String × PyVal)), PyVal.beqEntries xs ys = true → xs = ys
  | [], [], _ => rfl
  | [], _ :: _, h => by simp [PyVal.beqEntries] at h
  | _ :: _, [], h => by simp [PyVal.beqEntries] at h
  | (k1, v1) :: xs, (k2, v2) :: ys, h => by
    simp only [PyVal.beqEntries, Bool.and_eq_true, beq_iff_eq] at h
    rw [h.1.1, PyVal.beq_sound v1 v2 h.1.2, PyVal.beqEntries_sound xs ys h.2]

end

mutual

def PyVal.beq_refl : ∀ (a : PyVal), PyVal.beq a a = true
  | .none => rfl
  | .nan => rfl
  | .bool b => by simp [PyVal.beq]
  | .int n => by simp [PyVal.beq]
  | .str s => by simp [PyVal.beq]
  | .list xs => by simpa [PyVal.beq] using PyVal.beqList_refl xs
  | .dict es => by simpa [PyVal.beq] using PyVal.beqEntries_refl es

def PyVal.beqList_refl : ∀ (xs : List PyVal), PyVal.beqList xs xs = true
  | [] => rfl
  | x :: xs => by
    simp only [PyVal.beqList, Bool.and_eq_true]
    exact ⟨PyVal.beq_refl x, PyVal.beqList_refl xs⟩

def PyVal.beqEntries_refl : ∀ (xs : List (String × PyVal)), PyVal.beqEntries xs xs = true
  | [] => rfl
  | (k, v) :: xs => by
    simp only [PyVal.beqEntries, Bool.and_eq_true]
    exact ⟨⟨LawfulBEq.rfl, PyVal.beq_refl v⟩, PyVal.beqEntries_refl xs⟩

end

instance : BEq PyVal := ⟨PyVal.beq⟩

instance : LawfulBEq PyVal where
  eq_of_beq h := PyVal.beq_sound _ _ h
  rfl := PyVal.beq_refl _

instance : DecidableEq PyVal := fun a b =>
  decidable_of_iff ((a == b) = true) beq_iff_eq

/-- A Python dict with string keys, in insertion order. -/
abbrev PyDict := List (String × PyVal)

/-- A flat output row (`row` in `process_match`): a dict from column name to
value, in insertion order. -/
abbrev Row := PyDict

/-- Dict lookup (`d[k]` / `d.get(k)` on the key level): the value stored at
`k`, if any.  CPython dicts have unique keys; on association lists the first
binding is authoritative. -/
def dictGet : PyDict → String → Option PyVal
  | [], _ => Option.none
  | kv :: rest, k => if kv.1 == k then some kv.2 else dictGet rest k

/-- `k in d` for a dict. -/
def hasKey (d : PyDict) (k : String) : Bool :=
  d.any (fun kv => kv.1 == k)

/-- Dict assignment `d[k] = v`: replaces the value in place when the key is
present (CPython keeps the original insertion position), otherwise appends
the new binding at the end. -/
def dictSet (d : PyDict) (k : String) (v : PyVal) : PyDict :=
  if hasKey d k then d.map (fun kv => if kv.1 == k then (k, v) else kv)
  else d ++ [(k, v)]

/-- `d.update(u)`: sets every binding of `u` into `d`, in `u`'s order. -/
def dictUpdate (d : PyDict) (u : PyDict) : PyDict :=
  u.foldl (fun acc kv => dictSet acc kv.1 kv.2) d

/-- `m.get(k)` on a mapping: `None` when absent. -/
def matchGetD (m : PyDict) (k : String) : PyVal :=
  (dictGet m k).getD PyVal.none

/-- `x is None`. -/
def isNoneVal : PyVal → Bool
  | .none => true
  | _ => false

/-- Python truthiness (`if x:`).  Note `float('nan')` is truthy. -/
def PyVal.truthy : PyVal → Bool
  | .none => false
  | .nan => true
  | .bool b => b
  | .int n => n != 0
  | .str s => !(s.isEmpty)
  | .list xs => !(xs.isEmpty)
  | .dict es => !(es.isEmpty)

/-- The exceptions this code can actually raise and leave uncaught inside
`process_match` (calling `.get`/`.items` on a non-dict). -/
inductive PyErr where
  | attributeError
deriving DecidableEq

/-- `v.get(k, default)`: only dicts have `.get`; anything else raises
`AttributeError`. -/
def pyGet (v : PyVal) (k : String) (d : PyVal) : Except PyErr PyVal :=
  match v with
  | .dict es => Except.ok ((dictGet es k).getD d)
  | _ => Except.error PyErr.attributeError

def quoteStr : String := String.singleton (Char.ofNat 39)

-- `repr(v)` for the values of this model, used by `str()` on containers.
-- String escaping is not modelled (no string the pipeline formats this way
-- contains a quote).
mutual

def pyRepr : PyVal → String
  | .none => "None"
  | .nan => "nan"
  | .bool true => "True"
  | .bool false => "False"
  | .int n => toString n
  | .str s => quoteStr ++ s ++ quoteStr
  | .list xs => "[" ++ pyReprList xs ++ "]"
  | .dict es => "\x7b" ++ pyReprEntries es ++ "\x7d"

def pyReprList : List PyVal → String
  | [] => ""
  | [x] => pyRepr x
  | x :: xs => pyRepr x ++ ", " ++ pyReprList xs

def pyReprEntries : List (String × PyVal) → String
  | [] => ""
  | [(k, v)] => quoteStr ++ k ++ quoteStr ++ ": " ++ pyRepr v
  | (k, v) :: es => quoteStr ++ k ++ quoteStr ++ ": " ++ pyRepr v ++ ", " ++ pyReprEntries es

end

/-- `str(v)` — what an f-string interpolation produces. -/
def pyStr : PyVal → String
  | .str s => s
  | v => pyRepr v

/-- `len(v)`: defined for sequences and dicts, `TypeError` (modelled as
`Option.none`) otherwise. -/
def pyLen : PyVal → Option Nat
  | .list xs => some xs.length
  | .str s => some s.length
  | .dict es => some es.length
  | _ => Option.none

/-- `v[i]` for a natural index: list indexing, string indexing (a one-char
string), and failure (`KeyError`/`TypeError`) otherwise.  A dict indexed by
an integer raises `KeyError` since all keys here are strings. -/
def pyIndexNat : PyVal → Nat → Option PyVal
  | .list xs, i => xs[i]?
  | .str s, i => (s.toList[i]?).map (fun c => PyVal.str (String.singleton c))
  | _, _ => Option.none

/-- Tail of a Python integer literal body: digits with single underscores
strictly between digits. -/
def intLitTail : List Char → Bool
  | [] => true
  | '_' :: c :: rest => c.isDigit && intLitTail rest
  | c :: rest => c.isDigit && intLitTail rest

/-- Body of a Python integer literal: at least one digit, underscores only
between digits. -/
def intLitOk : List Char → Bool
  | [] => false
  | c :: rest => c.isDigit && intLitTail rest

/-- Whitespace for `str.strip()` / `int()` (the ASCII part of Python's
whitespace class; the pipeline's team keys never carry other whitespace). -/
def isPySpace (c : Char) : Bool :=
  c == ' ' || c == '\t' || c == '\n' || c == '\r' || c == Char.ofNat 11 || c == Char.ofNat 12

/-- Strip leading and trailing whitespace from a character list. -/
def pyStripChars (cs : List Char) : List Char :=
  ((cs.dropWhile isPySpace).reverse.dropWhile isPySpace).reverse

/-- Magnitude of a validated digit string (`_` separators skipped). -/
def digitsVal (cs : List Char) : Nat :=
  cs.foldl (fun n c => if c == '_' then n else n * 10 + (c.toNat - 48)) 0

/-- `int(s)` on a string: strip whitespace, optional sign, then a digit
string (ASCII digits, with `_` separators allowed between digits);
`Option.none` models `ValueError`. -/
def pyInt (s : String) : Option Int :=
  match pyStripChars s.data with
  | '-' :: rest => if intLitOk rest then some (-(digitsVal rest : Int)) else Option.none
  | '+' :: rest => if intLitOk rest then some ((digitsVal rest : Int)) else Option.none
  | rest => if intLitOk rest then some ((digitsVal rest : Int)) else Option.none

/-- Leftmost, non-overlapping removal of the substring `"frc"`, on the
character list. -/
def removeFrcChars : List Char → List Char
  | 'f' :: 'r' :: 'c' :: rest => removeFrcChars rest
  | c :: rest => c :: removeFrcChars rest
  | [] => []

/-- `s.replace("frc", "")` — Python's leftmost non-overlapping replacement,
specialised to the one pattern the source uses. -/
def replaceFrc (s : String) : String :=
  ⟨removeFrcChars s.data⟩

/-- Keys to ignore in the match-level common data (`IGNORE_TOP_KEYS`). -/
def IGNORE_TOP_KEYS : List String :=
  ["actual_time", "comp_level", "match_number", "key", "post_result_time",
   "predicted_time", "set_number", "time", "videos"]

/-- Reef sub-keys to ignore in `autoReef` and `teleopReef`
(`IGNORE_REEF_KEYS`). -/
def IGNORE_REEF_KEYS : List String := ["botRow", "midRow", "topRow"]

/-- `process_score_breakdown(sb)`: flatten the score breakdown for one
alliance.  `autoReef`/`teleopReef` dict values are lifted one level with a
`parent_child` name (skipping `IGNORE_REEF_KEYS`), `totalPoints` is skipped,
everything else is copied unchanged. -/
def process_score_breakdown (sb : PyDict) : PyDict :=
  sb.foldl
    (fun flat kv =>
      if kv.1 == "totalPoints" then flat
      else
        match kv.2 with
        | PyVal.dict sub =>
          if ["autoReef", "teleopReef"].contains kv.1 then
            sub.foldl
              (fun f skv =>
                if IGNORE_REEF_KEYS.contains skv.1 then f
                else dictSet f (kv.1 ++ "_" ++ skv.1) skv.2)
              flat
          else dictSet flat kv.1 kv.2
        | _ => dictSet flat kv.1 kv.2)
    []

/-- One slot of the `try: row["botN"] = int(team_keys[i].replace("frc", ""))
if len(team_keys) > i else None / except: row["botN"] = None` pattern.  Every
failing evaluation is caught by the bare `except:`, so the extraction is
total and degrades to `None`. -/
def extractBot (team_keys : PyVal) (i : Nat) : PyVal :=
  match pyLen team_keys with
  | Option.none => PyVal.none
  | some n =>
    if i < n then
      match pyIndexNat team_keys i with
      | some (PyVal.str s) =>
        match pyInt (replaceFrc s) with
        | some v => PyVal.int v
        | Option.none => PyVal.none
      | _ => PyVal.none
    else PyVal.none

/-- The body of the `for alliance_color in ['red', 'blue']` loop of
`process_match`: builds the row for one alliance colour, propagating the
exceptions the source would leave uncaught. -/
def processAlliance (common : Row) (alliances score_breakdown : PyVal) (color : String) :
    Except PyErr Row :=
  let row := dictSet common "alliance" (PyVal.str color)
  match pyGet alliances color (PyVal.dict []) with
  | .error e => .error e
  | .ok alliance_data =>
    match pyGet alliance_data "team_keys" (PyVal.list []) with
    | .error e => .error e
    | .ok team_keys =>
      let row := dictSet row "bot1" (extractBot team_keys 0)
      let row := dictSet row "bot2" (extractBot team_keys 1)
      let row := dictSet row "bot3" (extractBot team_keys 2)
      match pyGet alliance_data "score" PyVal.none with
      | .error e => .error e
      | .ok score =>
        let row := dictSet row "alliance_score" score
        match pyGet score_breakdown color (PyVal.dict []) with
        | .error e => .error e
        | .ok sb =>
          if sb.truthy then
            match sb with
            | PyVal.dict es => .ok (dictUpdate row (process_score_breakdown es))
            | _ => .error PyErr.attributeError
          else .ok row

/-- The common match-level data of `process_match`: every top-level binding
except `IGNORE_TOP_KEYS`, `alliances` and `score_breakdown`. -/
def buildCommon (m : PyDict) : PyDict :=
  m.foldl
    (fun cd kv =>
      if IGNORE_TOP_KEYS.contains kv.1 || kv.1 == "alliances" || kv.1 == "score_breakdown" then cd
      else dictSet cd kv.1 kv.2)
    []

/-- The common row data of `process_match`: the filtered top-level bindings
(`common_data`) plus the derived `match` identifier built from `comp_level`
and `match_number` (`.get` with default `""`). -/
def commonOf (m : PyDict) : Row :=
  let common0 := buildCommon m
  let comp_level := (dictGet m "comp_level").getD (PyVal.str "")
  let match_number := (dictGet m "match_number").getD (PyVal.str "")
  dictSet common0 "match" (PyVal.str (pyStr comp_level ++ " " ++ pyStr match_number))

/-- `process_match(match)`: 0 rows for an incomplete match, otherwise one row
per alliance colour in the fixed order red, blue.  Raises (returns
`Except.error`) exactly where the source would raise. -/
def process_match (m : PyDict) : Except PyErr (List Row) :=
  if isNoneVal (matchGetD m "alliances") || isNoneVal (matchGetD m "score_breakdown") then
    Except.ok []
  else
    let common := commonOf m
    let alliances := matchGetD m "alliances"
    let score_breakdown := matchGetD m "score_breakdown"
    match processAlliance common alliances score_breakdown "red" with
    | .error e => .error e
    | .ok r =>
      match processAlliance common alliances score_breakdown "blue" with
      | .error e => .error e
      | .ok b => .ok [r, b]

/-- `process_match` as called from `fetch_event_matches`, where the parsed
JSON element need not be a mapping: calling `.get` on a non-dict raises. -/
def process_match_val : PyVal → Except PyErr (List Row)
  | .dict es => process_match es
  | _ => .error PyErr.attributeError

/-- One entry of `error_list`: the source formats a message string containing
the match index, the offending raw data and the exception; we keep those
fields structurally. -/
structure MatchError where
  index : Nat
  matchData : PyVal
  err : PyErr
deriving DecidableEq

/-- The `for i, match in enumerate(matches)` loop of `fetch_event_matches`:
rows accumulate across matches, a raising match contributes one error record
and is skipped. -/
def fetchLoop : List PyVal → Nat → List Row → List MatchError → List Row × List MatchError
  | [], _, rows, errs => (rows, errs)
  | m :: rest, i, rows, errs =>
    match process_match_val m with
    | .ok processed => fetchLoop rest (i + 1) (rows ++ processed) errs
    | .error e => fetchLoop rest (i + 1) rows (errs ++ [⟨i, m, e⟩])

/-- The row-producing part of `fetch_event_matches` on an already-fetched,
already-parsed match list (the HTTP and JSON-parse failures of the source
function concern the external transport, not modelled here). -/
def fetch_event_matches_rows (ms : List PyVal) : List Row × List MatchError :=
  fetchLoop ms 0 [] []

/-- The rows a match contributes when it does not raise (and no rows when it
does). -/
def okRows (m : PyVal) : List Row :=
  match process_match_val m with
  | .ok rows => rows
  | .error _ => []

/-- A pandas DataFrame: an ordered column list plus the records.  A record
may lack a column; reading it there yields `nan`, as pandas fills holes. -/
structure DataFrame where
  cols : List String
  rows : List Row
deriving DecidableEq

/-- Column order of `pd.DataFrame(list_of_dicts)`: keys in first-encounter
order across the records. -/
def recordCols (rs : List Row) : List String :=
  rs.foldl
    (fun acc r => r.foldl (fun a kv => if a.contains kv.1 then a else a ++ [kv.1]) acc)
    []

/-- `pd.DataFrame(list_of_dicts)`. -/
def DataFrame.ofRecords (rs : List Row) : DataFrame :=
  ⟨recordCols rs, rs⟩

/-- The pandas error of selecting a missing column. -/
inductive PdErr where
  | keyError
deriving DecidableEq

/-- The value a record shows in column `c` (missing → `nan`). -/
def rowCell (r : Row) (c : String) : PyVal :=
  (dictGet r c).getD PyVal.nan

/-- `df[c]` as a list of cell values; `KeyError` when the column does not
exist. -/
def colValues (df : DataFrame) (c : String) : Except PdErr (List PyVal) :=
  if df.cols.contains c then Except.ok (df.rows.map (fun r => rowCell r c))
  else Except.error PdErr.keyError

/-- `Series.unique()` with an explicit seen-set: values in first-occurrence
order. -/
def uniqueFirstAux (seen : List PyVal) : List PyVal → List PyVal
  | [] => []
  | a :: as =>
    if seen.contains a then uniqueFirstAux seen as
    else a :: uniqueFirstAux (seen ++ [a]) as

/-- `Series.unique()`: values in first-occurrence order. -/
def uniqueFirst (l : List PyVal) : List PyVal :=
  uniqueFirstAux [] l

/-- `pd.concat([a, b], ignore_index=True)`: rows appended; the column set is
the union, keeping `a`'s order first. -/
def DataFrame.concat (a b : DataFrame) : DataFrame :=
  ⟨a.cols ++ b.cols.filter (fun c => !(a.cols.contains c)), a.rows ++ b.rows⟩

/-- The pinned-column loop of `reorder_columns`: walk
`["event_key", "match", "winning_alliance"]`, moving each column present in
`cols` (first occurrence, as `list.remove` does) to the pinned prefix. -/
def reorder_cols (cols : List String) : List String :=
  let p :=
    ["event_key", "match", "winning_alliance"].foldl
      (fun (acc : List String × List String) col =>
        if acc.2.contains col then (acc.1 ++ [col], acc.2.erase col) else acc)
      ([], cols)
  p.1 ++ p.2

/-- `reorder_columns(df)`: reorders the columns, leaves the records alone. -/
def reorder_columns (df : DataFrame) : DataFrame :=
  ⟨reorder_cols df.cols, df.rows⟩

/-- `update_file(new_data_df, mode)` up to (and including) the frame that is
written to disk.  `fileData` is the contents of the spreadsheet at the fixed
output path, `Option.none` when the file does not exist.  In `"update"` mode
rows of existing events re-delivered by the batch are dropped before the
batch is appended; in `"replace"` mode (or with no prior file) the new batch
stands alone.  The written frame is the reordered result. -/
def update_file (fileData : Option DataFrame) (new_data_df : DataFrame) (mode : String) :
    Except PdErr DataFrame :=
  match
    (if mode == "replace" || fileData.isNone then Except.ok new_data_df
     else
       match fileData with
       | some existing_df =>
         match colValues new_data_df "event_key" with
         | .error e => .error e
         | .ok newKeys =>
           let keys_to_replace := uniqueFirst newKeys
           match colValues existing_df "event_key" with
           | .error e => .error e
           | .ok _ =>
             let updated_df : DataFrame :=
               ⟨existing_df.cols,
                existing_df.rows.filter
                  (fun r => !(keys_to_replace.contains (rowCell r "event_key")))⟩
             Except.ok (DataFrame.concat updated_df new_data_df)
       | Option.none => Except.ok new_data_df) with
  | .error e => .error e
  | .ok df => Except.ok (reorder_columns df)

/-- Both `alliances` and `score_breakdown` present and non-null: the
condition under which `process_match` builds rows. -/
def isCompleteMatch (m : PyDict) : Bool :=
  !(isNoneVal (matchGetD m "alliances") || isNoneVal (matchGetD m "score_breakdown"))

/-- The key list of a dict, for uniqueness statements. -/
def keysNodup (d : PyDict) : Prop := (d.map Prod.fst).Nodup

/-- Whether an `Except` result is a normal return. -/
def exOk {ε α : Type} : Except ε α → Bool
  | .ok _ => true
  | .error _ => false

/-- The event identifier a row shows (the `event_key` cell). -/
def eventKeyOf (r : Row) : PyVal := rowCell r "event_key"

/-- The event identifiers of a row batch, one per row. -/
def eventKeys (rows : List Row) : List PyVal := rows.map eventKeyOf

/-- The alliance-colour entry of the score breakdown either flattens without
producing the key `k`, or is not a dict at all (in which case `process_match`
could only have skipped or raised on it). -/
def sbNoKey (S : PyVal) (color k : String) : Bool :=
  match S with
  | .dict es =>
    match (dictGet es color).getD (PyVal.dict []) with
    | .dict sb => !(hasKey (process_score_breakdown sb) k)
    | _ => true
  | _ => true

/-- The alliance entry for one colour is a dict (or absent, defaulting to the
empty dict): the shape under which the per-colour team/score extraction
cannot raise. -/
def allianceColorOk (A : PyVal) (color : String) : Bool :=
  match A with
  | .dict es =>
    match (dictGet es color).getD (PyVal.dict []) with
    | .dict _ => true
    | _ => false
  | _ => false

/-- The score-breakdown entry for one colour is a dict, or falsy (so the
`if sb:` guard skips it): the shape under which the flattening step cannot
raise. -/
def sbColorOk (S : PyVal) (color : String) : Bool :=
  match S with
  | .dict es =>
    match (dictGet es color).getD (PyVal.dict []) with
    | .dict _ => true
    | w => !w.truthy
  | _ => false

/-- The shapes of `alliances` / `score_breakdown` under which every statement
of `process_match` is exception-free: either the guard fires, or both are
dicts whose per-colour entries are dicts (score-breakdown entries may also be
falsy, which the `if sb:` test skips). -/
def process_match_safeShape (m : PyDict) : Bool :=
  isNoneVal (matchGetD m "alliances") || isNoneVal (matchGetD m "score_breakdown") ||
    (allianceColorOk (matchGetD m "alliances") "red" &&
     allianceColorOk (matchGetD m "alliances") "blue" &&
     sbColorOk (matchGetD m "score_breakdown") "red" &&
     sbColorOk (matchGetD m "score_breakdown") "blue")

/-- The reconciliation key of a row: its (event, match, alliance) cells. -/
def tripleOf (r : Row) : PyVal × PyVal × PyVal :=
  (rowCell r "event_key", rowCell r "match", rowCell r "alliance")

/-- Duplicate detector for a list of values. -/
def hasDupList : List (PyVal × PyVal × PyVal) → Bool
  | [] => false
  | x :: xs => xs.contains x || hasDupList xs

/-- Whether a row set holds two rows with the same (event, match, alliance)
triple. -/
def hasDupTriples (rows : List Row) : Bool :=
  hasDupList (rows.map tripleOf)

/-- The rows of a `process_match` result (`[]` when it raised). -/
def pmRows (m : PyDict) : List Row :=
  match process_match m with
  | Except.ok rows => rows
  | Except.error _ => []

/-- The rows of the frame a reconciliation produced (`[]` when it raised). -/
def dfRows : Except PdErr DataFrame → List Row
  | Except.ok df => df.rows
  | Except.error _ => []

/-- The rows stored in the spreadsheet (`[]` when the file does not exist). -/
def existingRows : Option DataFrame → List Row
  | some df => df.rows
  | Option.none => []

/-- A complete match whose red score breakdown carries a literal `alliance`
key, so the flattening step overwrites the row's own `alliance` cell. -/
def allianceOverwriteMatch : PyDict :=
  [("alliances", PyVal.dict []),
   ("score_breakdown",
    PyVal.dict [("red", PyVal.dict [("alliance", PyVal.str "overwritten")])])]

/-- A realistic complete qualification match (the end-to-end scenario of the
specification). -/
def exampleMatch : PyDict :=
  [("event_key", PyVal.str "2025onha"),
   ("comp_level", PyVal.str "qm"),
   ("match_number", PyVal.int 5),
   ("winning_alliance", PyVal.str "red"),
   ("alliances",
    PyVal.dict
      [("red",
        PyVal.dict
          [("team_keys",
            PyVal.list [PyVal.str "frc254", PyVal.str "frc1678", PyVal.str "frc118"]),
           ("score", PyVal.int 120)]),
       ("blue",
        PyVal.dict
          [("team_keys", PyVal.list [PyVal.str "frc1", PyVal.str "frc2"]),
           ("score", PyVal.int 80)])]),
   ("score_breakdown",
    PyVal.dict
      [("red",
        PyVal.dict
          [("totalPoints", PyVal.int 120),
           ("autoReef", PyVal.dict [("botRow", PyVal.int 1), ("algae", PyVal.int 2)]),
           ("foo", PyVal.int 3)]),
       ("blue", PyVal.dict [("totalPoints", PyVal.int 80)])])]

/-- A match whose `alliances` value is a non-dict (the API would never send
this, but `process_match` is claimed never to raise): `.get` on it raises
`AttributeError`. -/
def nonDictAlliancesMatch : PyDict :=
  [("alliances", PyVal.int 1), ("score_breakdown", PyVal.dict [])]

/-- A malformed-but-safe match: alliance entries are dicts, but the team key
list holds a non-string, and a team-key string has no parsable number. -/
def malformedTeamKeysMatch : PyDict :=
  [("event_key", PyVal.str "2025onha"),
   ("alliances",
    PyVal.dict
      [("red",
        PyVal.dict [("team_keys", PyVal.list [PyVal.int 5, PyVal.str "frcX"]),
                    ("score", PyVal.int 1)])]),
   ("score_breakdown", PyVal.dict [("red", PyVal.dict [("rp", PyVal.int 2)])])]

/-- A complete match that itself carries a top-level `totalPoints` key. -/
def topLevelTotalPointsMatch : PyDict :=
  [("totalPoints", PyVal.int 5),
   ("alliances", PyVal.dict []),
   ("score_breakdown", PyVal.dict [])]

/-- One semifinal match value; two of these differing only in `set_number`
share `comp_level` and `match_number`, hence the derived `match` identifier. -/
def sfMatchVal (setN : Int) : PyVal :=
  PyVal.dict
    [("event_key", PyVal.str "2025onha"),
     ("comp_level", PyVal.str "sf"),
     ("set_number", PyVal.int setN),
     ("match_number", PyVal.int 1),
     ("winning_alliance", PyVal.str "red"),
     ("alliances",
      PyVal.dict
        [("red",
          PyVal.dict [("team_keys", PyVal.list [PyVal.str "frc1"]), ("score", PyVal.int 10)]),
         ("blue",
          PyVal.dict [("team_keys", PyVal.list [PyVal.str "frc2"]), ("score", PyVal.int 5)])]),
     ("score_breakdown",
      PyVal.dict
        [("red", PyVal.dict [("rp", PyVal.int 3)]),
         ("blue", PyVal.dict [("rp", PyVal.int 1)])])]

/-- The fetched match list of an event holding two semifinal sets. -/
def semifinalMatches : List PyVal := [sfMatchVal 1, sfMatchVal 2]

/-- The batch the pipeline produces for `semifinalMatches`. -/
def semifinalBatch : DataFrame :=
  DataFrame.ofRecords (fetch_event_matches_rows semifinalMatches).fst

/-- A one-row existing dataset with an `event_key` column. -/
def tinyExistingDf : DataFrame :=
  DataFrame.ofRecords [[("event_key", PyVal.str "2025onha"), ("match", PyVal.str "qm 1")]]

/-- A non-empty incoming batch that lacks the `event_key` column. -/
def noEventKeyBatch : DataFrame :=
  DataFrame.ofRecords [[("x", PyVal.int 1)]]

/-- A one-row incoming batch with distinct reconciliation triples. -/
def smallBatch : DataFrame :=
  DataFrame.ofRecords
    [[("event_key", PyVal.str "B"), ("match", PyVal.str "qm 1"),
      ("alliance", PyVal.str "red")]]

theorem hasKey_eq_isSome (d : PyDict) (k : String) : hasKey d k = (dictGet d k).isSome := by
  induction d with
  | nil => rfl
  | cons kv rest ih =>
    simp only [hasKey, List.any_cons, dictGet]
    by_cases h : kv.1 == k
    · simp [h]
    · simp only [Bool.or_eq_true] at *
      simp [h, ← ih, hasKey]

theorem dictGet_none_of_hasKey_false {d : PyDict} {k : String} (h : hasKey d k = false) :
    dictGet d k = Option.none := by
  have := hasKey_eq_isSome d k
  rw [h] at this
  cases hg : dictGet d k with
  | none => rfl
  | some v => rw [hg] at this; simp at this

theorem dictGet_append (d e : PyDict) (k : String) :
    dictGet (d ++ e) k = ((dictGet d k).or (dictGet e k)) := by
  induction d with
  | nil => simp [dictGet]
  | cons kv rest ih =>
    simp only [List.cons_append, dictGet]
    by_cases h : kv.1 == k <;> simp [h, ih]

theorem dictGet_mapSet_self (d : PyDict) (k : String) (v : PyVal) (h : hasKey d k = true) :
    dictGet (d.map (fun kv => if kv.1 == k then (k, v) else kv)) k = some v := by
  induction d with
  | nil => simp [hasKey] at h
  | cons kv rest ih =>
    simp only [List.map_cons, dictGet]
    by_cases h1 : kv.1 == k
    · rw [if_pos h1]
      simp
    · rw [if_neg h1, if_neg h1]
      simp only [hasKey, List.any_cons, h1, Bool.false_or] at h
      exact ih h

theorem dictGet_dictSet_self (d : PyDict) (k : String) (v : PyVal) :
    dictGet (dictSet d k v) k = some v := by
  unfold dictSet
  by_cases h : hasKey d k
  · rw [if_pos h]
    exact dictGet_mapSet_self d k v h
  · rw [if_neg h, dictGet_append, dictGet_none_of_hasKey_false (by simpa using h)]
    simp [dictGet]

theorem dictGet_mapSet_ne (d : PyDict) {k' k : String} (v : PyVal) (h : k' ≠ k) :
    dictGet (d.map (fun kv => if kv.1 == k' then (k', v) else kv)) k = dictGet d k := by
  induction d with
  | nil => rfl
  | cons kv rest ih =>
    simp only [List.map_cons, dictGet]
    by_cases h1 : kv.1 == k'
    · have h1' : kv.1 = k' := by simpa using h1
      have h2 : ¬((k' == k) = true) := by simpa using h
      have h3 : ¬((kv.1 == k) = true) := by rw [h1']; exact h2
      rw [if_pos h1, if_neg h2, if_neg h3]
      exact ih
    · rw [if_neg h1]
      by_cases h3 : kv.1 == k
      · rw [if_pos h3, if_pos h3]
      · rw [if_neg h3, if_neg h3]
        exact ih

theorem dictGet_dictSet_ne (d : PyDict) {k' k : String} (v : PyVal) (h : k' ≠ k) :
    dictGet (dictSet d k' v) k = dictGet d k := by
  unfold dictSet
  by_cases hk : hasKey d k'
  · rw [if_pos hk]
    exact dictGet_mapSet_ne d v h
  · rw [if_neg hk, dictGet_append]
    have h2 : dictGet [(k', v)] k = Option.none := by simp [dictGet, h]
    rw [h2]
    cases dictGet d k <;> rfl

theorem hasKey_dictSet (d : PyDict) (k' k : String) (v : PyVal) :
    hasKey (dictSet d k' v) k = (k' == k || hasKey d k) := by
  rw [hasKey_eq_isSome, hasKey_eq_isSome]
  by_cases h : k' = k
  · subst h
    rw [dictGet_dictSet_self]
    simp
  · rw [dictGet_dictSet_ne d v h]
    simp [h]

theorem hasKey_dictUpdate (d u : PyDict) (k : String) :
    hasKey (dictUpdate d u) k = (hasKey d k || hasKey u k) := by
  induction u generalizing d with
  | nil => simp [dictUpdate, hasKey]
  | cons kv rest ih =>
    simp only [dictUpdate, List.foldl_cons] at *
    rw [ih (dictSet d kv.1 kv.2), hasKey_dictSet]
    simp only [hasKey, List.any_cons]
    by_cases h : kv.1 == k <;> simp [h]

theorem dictGet_dictUpdate_notKey (d : PyDict) {u : PyDict} {k : String}
    (h : hasKey u k = false) :
    dictGet (dictUpdate d u) k = dictGet d k := by
  induction u generalizing d with
  | nil => rfl
  | cons kv rest ih =>
    simp only [hasKey, List.any_cons, Bool.or_eq_false_iff] at h
    simp only [dictUpdate, List.foldl_cons]
    have hr : hasKey rest k = false := by simp [hasKey, h.2]
    rw [show rest.foldl (fun acc kv => dictSet acc kv.1 kv.2) (dictSet d kv.1 kv.2) =
          dictUpdate (dictSet d kv.1 kv.2) rest from rfl,
        ih (dictSet d kv.1 kv.2) hr,
        dictGet_dictSet_ne _ _ (by simpa using h.1)]

theorem hasKey_iff_mem {d : PyDict} {k : String} :
    hasKey d k = true ↔ k ∈ d.map Prod.fst := by
  simp [hasKey, List.any_eq_true, List.mem_map]

theorem keys_dictSet_of_hasKey {d : PyDict} {k : String} (v : PyVal) (h : hasKey d k = true) :
    (dictSet d k v).map Prod.fst = d.map Prod.fst := by
  unfold dictSet
  rw [if_pos h, List.map_map]
  apply List.map_congr_left
  intro kv _
  by_cases h1 : kv.1 == k
  · have : kv.1 = k := by simpa using h1
    simp [Function.comp, h1, this]
  · simp [Function.comp, h1]

theorem keys_dictSet_of_not_hasKey {d : PyDict} {k : String} (v : PyVal)
    (h : hasKey d k = false) :
    (dictSet d k v).map Prod.fst = d.map Prod.fst ++ [k] := by
  unfold dictSet
  rw [if_neg (by simp [h]), List.map_append]
  rfl

theorem keysNodup_dictSet {d : PyDict} (k : String) (v : PyVal) (h : keysNodup d) :
    keysNodup (dictSet d k v) := by
  unfold keysNodup
  by_cases hk : hasKey d k
  · rw [keys_dictSet_of_hasKey v hk]
    exact h
  · rw [keys_dictSet_of_not_hasKey v (by simpa using hk)]
    have : k ∉ d.map Prod.fst := fun hm => hk (hasKey_iff_mem.mpr hm)
    simp [List.nodup_append, this]
    exact h

theorem keysNodup_innerFold (prefKey : String) (sub : PyDict) :
    ∀ (acc : PyDict), keysNodup acc →
      keysNodup (sub.foldl
        (fun f skv =>
          if IGNORE_REEF_KEYS.contains skv.1 then f
          else dictSet f (prefKey ++ "_" ++ skv.1) skv.2) acc) := by
  induction sub with
  | nil => intro acc h; exact h
  | cons skv rest ih =>
    intro acc h
    simp only [List.foldl_cons]
    apply ih
    by_cases hskip : IGNORE_REEF_KEYS.contains skv.1
    · rw [if_pos hskip]
      exact h
    · rw [if_neg hskip]
      exact keysNodup_dictSet _ _ h

theorem keysNodup_psbFold (sb : PyDict) :
    ∀ (acc : PyDict), keysNodup acc →
      keysNodup (sb.foldl
        (fun flat kv =>
          if kv.1 == "totalPoints" then flat
          else
            match kv.2 with
            | PyVal.dict sub =>
              if ["autoReef", "teleopReef"].contains kv.1 then
                sub.foldl
                  (fun f skv =>
                    if IGNORE_REEF_KEYS.contains skv.1 then f
                    else dictSet f (kv.1 ++ "_" ++ skv.1) skv.2)
                  flat
              else dictSet flat kv.1 kv.2
            | _ => dictSet flat kv.1 kv.2) acc) := by
  induction sb with
  | nil => intro acc h; exact h
  | cons kv rest ih =>
    intro acc h
    simp only [List.foldl_cons]
    apply ih
    by_cases htp : kv.1 == "totalPoints"
    · simpa [htp] using h
    · rw [if_neg htp]
      cases hv : kv.2 with
      | dict sub =>
        dsimp only
        by_cases hreef : ["autoReef", "teleopReef"].contains kv.1
        · rw [if_pos hreef]
          exact keysNodup_innerFold kv.1 sub acc h
        · rw [if_neg hreef]
          exact keysNodup_dictSet _ _ h
      | none => exact keysNodup_dictSet _ _ h
      | nan => exact keysNodup_dictSet _ _ h
      | bool b => exact keysNodup_dictSet _ _ h
      | int n => exact keysNodup_dictSet _ _ h
      | str s => exact keysNodup_dictSet _ _ h
      | list xs => exact keysNodup_dictSet _ _ h

theorem keysNodup_process_score_breakdown (sb : PyDict) :
    keysNodup (process_score_breakdown sb) :=
  keysNodup_psbFold sb [] (by simp [keysNodup])

theorem autoReef_key_ne_totalPoints (s : String) : ("autoReef" ++ "_" ++ s) ≠ "totalPoints" := by
  intro h
  have h2 := congrArg String.data h
  rw [String.data_append, String.data_append] at h2
  rw [show "autoReef".data = ['a', 'u', 't', 'o', 'R', 'e', 'e', 'f'] from rfl] at h2
  simp at h2

theorem teleopReef_key_ne_totalPoints (s : String) :
    ("teleopReef" ++ "_" ++ s) ≠ "totalPoints" := by
  intro h
  have h2 := congrArg String.data h
  rw [String.data_append, String.data_append] at h2
  rw [show "teleopReef".data = ['t', 'e', 'l', 'e', 'o', 'p', 'R', 'e', 'e', 'f'] from rfl] at h2
  simp at h2

theorem hasKey_innerFold_totalPoints (prefKey : String) (sub : PyDict)
    (hp : ∀ s : String, (prefKey ++ "_" ++ s) ≠ "totalPoints") :
    ∀ (acc : PyDict), hasKey acc "totalPoints" = false →
      hasKey (sub.foldl
        (fun f skv =>
          if IGNORE_REEF_KEYS.contains skv.1 then f
          else dictSet f (prefKey ++ "_" ++ skv.1) skv.2) acc) "totalPoints" = false := by
  induction sub with
  | nil => intro acc h; exact h
  | cons skv rest ih =>
    intro acc h
    simp only [List.foldl_cons]
    apply ih
    by_cases hskip : IGNORE_REEF_KEYS.contains skv.1
    · rw [if_pos hskip]
      exact h
    · rw [if_neg hskip, hasKey_dictSet]
      simp [h, hp skv.1]

theorem hasKey_psbFold_totalPoints (sb : PyDict) :
    ∀ (acc : PyDict), hasKey acc "totalPoints" = false →
      hasKey (sb.foldl
        (fun flat kv =>
          if kv.1 == "totalPoints" then flat
          else
            match kv.2 with
            | PyVal.dict sub =>
              if ["autoReef", "teleopReef"].contains kv.1 then
                sub.foldl
                  (fun f skv =>
                    if IGNORE_REEF_KEYS.contains skv.1 then f
                    else dictSet f (kv.1 ++ "_" ++ skv.1) skv.2)
                  flat
              else dictSet flat kv.1 kv.2
            | _ => dictSet flat kv.1 kv.2) acc) "totalPoints" = false := by
  induction sb with
  | nil => intro acc h; exact h
  | cons kv rest ih =>
    intro acc h
    simp only [List.foldl_cons]
    apply ih
    by_cases htp : kv.1 == "totalPoints"
    · rw [if_pos htp]
      exact h
    · rw [if_neg htp]
      have hne : ¬(kv.1 == "totalPoints") = true := htp
      have hne' : kv.1 ≠ "totalPoints" := by simpa using hne
      cases hv : kv.2 with
      | dict sub =>
        dsimp only
        by_cases hreef : ["autoReef", "teleopReef"].contains kv.1
        · rw [if_pos hreef]
          have hmem : kv.1 = "autoReef" ∨ kv.1 = "teleopReef" := by
            simpa using hreef
          apply hasKey_innerFold_totalPoints kv.1 sub _ acc h
          cases hmem with
          | inl he => rw [he]; exact autoReef_key_ne_totalPoints
          | inr he => rw [he]; exact teleopReef_key_ne_totalPoints
        · rw [if_neg hreef, hasKey_dictSet]
          simp [h, hne']
      | none =>
        show hasKey (dictSet acc kv.1 PyVal.none) "totalPoints" = false
        rw [hasKey_dictSet]
        simp [h, hne']
      | nan =>
        show hasKey (dictSet acc kv.1 PyVal.nan) "totalPoints" = false
        rw [hasKey_dictSet]
        simp [h, hne']
      | bool b =>
        show hasKey (dictSet acc kv.1 (PyVal.bool b)) "totalPoints" = false
        rw [hasKey_dictSet]
        simp [h, hne']
      | int n =>
        show hasKey (dictSet acc kv.1 (PyVal.int n)) "totalPoints" = false
        rw [hasKey_dictSet]
        simp [h, hne']
      | str s =>
        show hasKey (dictSet acc kv.1 (PyVal.str s)) "totalPoints" = false
        rw [hasKey_dictSet]
        simp [h, hne']
      | list xs =>
        show hasKey (dictSet acc kv.1 (PyVal.list xs)) "totalPoints" = false
        rw [hasKey_dictSet]
        simp [h, hne']

theorem hasKey_process_score_breakdown_totalPoints (sb : PyDict) :
    hasKey (process_score_breakdown sb) "totalPoints" = false :=
  hasKey_psbFold_totalPoints sb [] rfl

theorem dictGet_dictUpdate_of_get (d : PyDict) {u : PyDict} {k : String} {v : PyVal}
    (hnd : keysNodup u) (h : dictGet u k = some v) :
    dictGet (dictUpdate d u) k = some v := by
  induction u generalizing d with
  | nil => simp [dictGet] at h
  | cons kv rest ih =>
    simp only [keysNodup, List.map_cons, List.nodup_cons] at hnd
    simp only [dictUpdate, List.foldl_cons]
    rw [show rest.foldl (fun acc kv => dictSet acc kv.1 kv.2) (dictSet d kv.1 kv.2) =
          dictUpdate (dictSet d kv.1 kv.2) rest from rfl]
    simp only [dictGet] at h
    by_cases hk : kv.1 == k
    · rw [if_pos hk] at h
      have hk' : kv.1 = k := by simpa using hk
      have hrest : hasKey rest k = false := by
        cases hcontra : hasKey rest k
        · rfl
        · exact absurd (hk' ▸ hasKey_iff_mem.mp hcontra) hnd.1
      rw [dictGet_dictUpdate_notKey _ hrest, hk', dictGet_dictSet_self]
      exact h
    · rw [if_neg hk] at h
      exact ih (dictSet d kv.1 kv.2) hnd.2 h

theorem fetchLoop_all_ok :
    ∀ (ms : List PyVal) (i : Nat) (rows : List Row) (errs : List MatchError),
      ms.all (fun m => exOk (process_match_val m)) = true →
      fetchLoop ms i rows errs = (rows ++ ms.flatMap okRows, errs) := by
  intro ms
  induction ms with
  | nil => intro i rows errs _; simp [fetchLoop]
  | cons m rest ih =>
    intro i rows errs hall
    simp only [List.all_cons, Bool.and_eq_true] at hall
    simp only [fetchLoop]
    cases hpm : process_match_val m with
    | error e => rw [hpm] at hall; simp [exOk] at hall
    | ok processed =>
      dsimp only
      rw [ih (i + 1) (rows ++ processed) errs hall.2, List.flatMap_cons]
      simp [okRows, hpm, List.append_assoc]

theorem fetchLoop_append_ok :
    ∀ (pre : List PyVal), pre.all (fun m => exOk (process_match_val m)) = true →
      ∀ (rest : List PyVal) (i : Nat) (rows : List Row) (errs : List MatchError),
        fetchLoop (pre ++ rest) i rows errs =
          fetchLoop rest (i + pre.length) (rows ++ pre.flatMap okRows) errs := by
  intro pre
  induction pre with
  | nil => intro _ rest i rows errs; simp
  | cons m pre' ih =>
    intro hall rest i rows errs
    simp only [List.all_cons, Bool.and_eq_true] at hall
    simp only [List.cons_append, fetchLoop]
    cases hpm : process_match_val m with
    | error e => rw [hpm] at hall; simp [exOk] at hall
    | ok processed =>
      dsimp only
      simp only [List.append_eq]
      rw [ih hall.2 rest (i + 1) (rows ++ processed) errs, List.flatMap_cons]
      simp only [okRows, hpm, List.append_assoc, List.length_cons]
      congr 1
      omega

theorem fetch_rows_one_bad (pre post : List PyVal) (bad : PyVal) (e : PyErr)
    (hpre : pre.all (fun m => exOk (process_match_val m)) = true)
    (hpost : post.all (fun m => exOk (process_match_val m)) = true)
    (hbad : process_match_val bad = Except.error e) :
    fetch_event_matches_rows (pre ++ bad :: post) =
      (pre.flatMap okRows ++ post.flatMap okRows,
       [{ index := pre.length, matchData := bad, err := e }]) := by
  unfold fetch_event_matches_rows
  rw [fetchLoop_append_ok pre hpre]
  simp only [fetchLoop, hbad]
  rw [fetchLoop_all_ok post _ _ _ hpost]
  simp

theorem contains_uniqueFirstAux :
    ∀ (l seen : List PyVal) (x : PyVal),
      (uniqueFirstAux seen l).contains x = (l.contains x && !(seen.contains x)) := by
  intro l
  induction l with
  | nil => intro seen x; simp [uniqueFirstAux]
  | cons a as ih =>
    intro seen x
    simp only [uniqueFirstAux]
    by_cases hs : seen.contains a
    · rw [if_pos hs, ih seen x]
      by_cases hax : x = a
      · subst hax
        simp_all
      · simp [List.contains_cons, hax]
    · rw [if_neg hs]
      by_cases hax : x = a
      · subst hax
        simp_all [List.contains_cons]
      · simp only [List.contains_cons, ih (seen ++ [a]) x]
        have hb : (x == a) = false := by simpa using hax
        simp [hb, List.contains_cons, hax]

theorem contains_uniqueFirst (l : List PyVal) (x : PyVal) :
    (uniqueFirst l).contains x = l.contains x := by
  have := contains_uniqueFirstAux l [] x
  simpa [uniqueFirst] using this

theorem colValues_ok {df : DataFrame} {c : String} (h : df.cols.contains c = true) :
    colValues df c = Except.ok (df.rows.map (fun r => rowCell r c)) := by
  unfold colValues
  rw [if_pos h]

theorem update_file_replace_eq (fd : Option DataFrame) (nd : DataFrame) :
    update_file fd nd "replace" = Except.ok (reorder_columns nd) := by
  unfold update_file
  rw [if_pos (by simp)]

theorem update_file_nofile_eq (nd : DataFrame) (mode : String) :
    update_file Option.none nd mode = Except.ok (reorder_columns nd) := by
  unfold update_file
  rw [if_pos (by simp)]

theorem update_file_update_ok (ex nd : DataFrame)
    (hexc : ex.cols.contains "event_key" = true)
    (hndc : nd.cols.contains "event_key" = true) :
    update_file (some ex) nd "update" =
      Except.ok (reorder_columns (DataFrame.concat
        ⟨ex.cols,
         ex.rows.filter (fun r => !((eventKeys nd.rows).contains (eventKeyOf r)))⟩ nd)) := by
  unfold update_file
  rw [if_neg (by simp)]
  dsimp only
  rw [colValues_ok hndc]
  dsimp only
  rw [colValues_ok hexc]
  dsimp only
  have hfilter :
      ex.rows.filter
        (fun r =>
          !((uniqueFirst (nd.rows.map (fun r2 => rowCell r2 "event_key"))).contains
            (rowCell r "event_key"))) =
        ex.rows.filter (fun r => !((eventKeys nd.rows).contains (eventKeyOf r))) := by
    apply List.filter_congr
    intro r _
    rw [contains_uniqueFirst]
    rfl
  rw [hfilter]

theorem update_file_ok_rows (fd : Option DataFrame) (nd : DataFrame) (mode : String)
    (df : DataFrame) (h : update_file fd nd mode = Except.ok df) :
    df.rows = nd.rows ∨
      ∃ ex, fd = some ex ∧
        df.rows =
          ex.rows.filter (fun r => !((eventKeys nd.rows).contains (eventKeyOf r))) ++ nd.rows := by
  by_cases hrep : (mode == "replace") = true
  · have hm : mode = "replace" := by simpa using hrep
    subst hm
    rw [update_file_replace_eq] at h
    injection h with h2
    subst h2
    left
    rfl
  · cases fd with
    | none =>
      rw [update_file_nofile_eq] at h
      injection h with h2
      subst h2
      left
      rfl
    | some ex =>
      unfold update_file at h
      rw [if_neg (by simp [hrep])] at h
      dsimp only at h
      cases hnv : colValues nd "event_key" with
      | error e => rw [hnv] at h; simp at h
      | ok newKeys =>
        rw [hnv] at h
        dsimp only at h
        cases hev : colValues ex "event_key" with
        | error e => rw [hev] at h; simp at h
        | ok exKeys =>
          rw [hev] at h
          dsimp only at h
          injection h with h2
          subst h2
          right
          refine ⟨ex, rfl, ?_⟩
          have hkeys : newKeys = nd.rows.map (fun r => rowCell r "event_key") := by
            unfold colValues at hnv
            by_cases hc : nd.cols.contains "event_key" = true
            · rw [if_pos hc] at hnv
              injection hnv with h3
              exact h3.symm
            · rw [if_neg hc] at hnv
              cases hnv
          subst hkeys
          show (ex.rows.filter _) ++ nd.rows = (ex.rows.filter _) ++ nd.rows
          congr 1
          apply List.filter_congr
          intro r _
          rw [contains_uniqueFirst]
          rfl

theorem rowChain_alliance (common : Row) (color : String) (b1 b2 b3 sc : PyVal) :
    dictGet (dictSet (dictSet (dictSet (dictSet (dictSet common "alliance" (PyVal.str color))
      "bot1" b1) "bot2" b2) "bot3" b3) "alliance_score" sc) "alliance" =
      some (PyVal.str color) := by
  rw [dictGet_dictSet_ne _ _ (by decide), dictGet_dictSet_ne _ _ (by decide),
      dictGet_dictSet_ne _ _ (by decide), dictGet_dictSet_ne _ _ (by decide),
      dictGet_dictSet_self]

theorem processAlliance_alliance_get {common : Row} {A S : PyVal} {color : String} {row : Row}
    (h : processAlliance common A S color = Except.ok row)
    (hsafe : sbNoKey S color "alliance" = true) :
    dictGet row "alliance" = some (PyVal.str color) := by
  unfold processAlliance at h
  cases hA : pyGet A color (PyVal.dict []) with
  | error e => rw [hA] at h; cases h
  | ok ad =>
    rw [hA] at h
    dsimp only at h
    cases hTK : pyGet ad "team_keys" (PyVal.list []) with
    | error e => rw [hTK] at h; cases h
    | ok tk =>
      rw [hTK] at h
      dsimp only at h
      cases hSC : pyGet ad "score" PyVal.none with
      | error e => rw [hSC] at h; cases h
      | ok sc =>
        rw [hSC] at h
        dsimp only at h
        cases hSB : pyGet S color (PyVal.dict []) with
        | error e => rw [hSB] at h; cases h
        | ok sb =>
          rw [hSB] at h
          dsimp only at h
          by_cases ht : sb.truthy = true
          · rw [if_pos ht] at h
            cases sb with
            | dict es =>
              injection h with h2
              subst h2
              have hes : hasKey (process_score_breakdown es) "alliance" = false := by
                unfold pyGet at hSB
                cases S with
                | dict ses =>
                  injection hSB with h3
                  unfold sbNoKey at hsafe
                  dsimp only at hsafe
                  rw [h3] at hsafe
                  simpa using hsafe
                | none => cases hSB
                | nan => cases hSB
                | bool b => cases hSB
                | int n => cases hSB
                | str s => cases hSB
                | list xs => cases hSB
              rw [dictGet_dictUpdate_notKey _ hes]
              exact rowChain_alliance common color _ _ _ _
            | none => cases h
            | nan => cases h
            | bool b => cases h
            | int n => cases h
            | str s => cases h
            | list xs => cases h
          · rw [if_neg ht] at h
            injection h with h2
            subst h2
            exact rowChain_alliance common color _ _ _ _

theorem process_match_ok_elim {m : PyDict} {rows : List Row}
    (hc : isCompleteMatch m = true) (h : process_match m = Except.ok rows) :
    ∃ r b,
      processAlliance (commonOf m) (matchGetD m "alliances") (matchGetD m "score_breakdown")
        "red" = Except.ok r ∧
      processAlliance (commonOf m) (matchGetD m "alliances") (matchGetD m "score_breakdown")
        "blue" = Except.ok b ∧
      rows = [r, b] := by
  unfold isCompleteMatch at hc
  unfold process_match at h
  rw [if_neg (by simpa using hc)] at h
  dsimp only at h
  cases hr : processAlliance (commonOf m) (matchGetD m "alliances")
      (matchGetD m "score_breakdown") "red" with
  | error e => rw [hr] at h; cases h
  | ok r =>
    rw [hr] at h
    dsimp only at h
    cases hb : processAlliance (commonOf m) (matchGetD m "alliances")
        (matchGetD m "score_breakdown") "blue" with
    | error e => rw [hb] at h; cases h
    | ok b =>
      rw [hb] at h
      dsimp only at h
      injection h with h2
      exact ⟨r, b, rfl, rfl, h2.symm⟩

theorem processAlliance_sb_overwrite {common : Row} {A S : PyVal} {color : String} {row : Row}
    {ses sb : PyDict} {k : String} {v : PyVal}
    (h : processAlliance common A S color = Except.ok row)
    (hS : S = PyVal.dict ses)
    (hsb : (dictGet ses color).getD (PyVal.dict []) = PyVal.dict sb)
    (hget : dictGet (process_score_breakdown sb) k = some v) :
    dictGet row k = some v := by
  subst hS
  unfold processAlliance at h
  cases hA : pyGet A color (PyVal.dict []) with
  | error e => rw [hA] at h; cases h
  | ok ad =>
    rw [hA] at h
    dsimp only at h
    cases hTK : pyGet ad "team_keys" (PyVal.list []) with
    | error e => rw [hTK] at h; cases h
    | ok tk =>
      rw [hTK] at h
      dsimp only at h
      cases hSC : pyGet ad "score" PyVal.none with
      | error e => rw [hSC] at h; cases h
      | ok sc =>
        rw [hSC] at h
        dsimp only at h
        rw [show pyGet (PyVal.dict ses) color (PyVal.dict []) =
              Except.ok (PyVal.dict sb) from by simp [pyGet, hsb]] at h
        dsimp only at h
        have htr : (PyVal.dict sb).truthy = true := by
          cases hsbe : sb with
          | nil =>
            rw [hsbe] at hget
            simp [process_score_breakdown, dictGet] at hget
          | cons kv rest => simp [PyVal.truthy]
        rw [if_pos htr] at h
        injection h with h2
        subst h2
        exact dictGet_dictUpdate_of_get _ (keysNodup_process_score_breakdown sb) hget

theorem processAlliance_isOk (common : Row) {A S : PyVal} {color : String}
    (hA : allianceColorOk A color = true) (hS : sbColorOk S color = true) :
    exOk (processAlliance common A S color) = true := by
  unfold processAlliance
  cases A with
  | dict aes =>
    rw [show pyGet (PyVal.dict aes) color (PyVal.dict []) =
          Except.ok ((dictGet aes color).getD (PyVal.dict [])) from rfl]
    dsimp only
    unfold allianceColorOk at hA
    dsimp only at hA
    cases had : (dictGet aes color).getD (PyVal.dict []) with
    | dict ades =>
      rw [show pyGet (PyVal.dict ades) "team_keys" (PyVal.list []) =
            Except.ok ((dictGet ades "team_keys").getD (PyVal.list [])) from rfl]
      dsimp only
      rw [show pyGet (PyVal.dict ades) "score" PyVal.none =
            Except.ok ((dictGet ades "score").getD PyVal.none) from rfl]
      dsimp only
      cases S with
      | dict ses =>
        rw [show pyGet (PyVal.dict ses) color (PyVal.dict []) =
              Except.ok ((dictGet ses color).getD (PyVal.dict [])) from rfl]
        dsimp only
        unfold sbColorOk at hS
        dsimp only at hS
        cases hsb : (dictGet ses color).getD (PyVal.dict []) with
        | dict sbes =>
          by_cases ht : (PyVal.dict sbes).truthy = true
          · rw [if_pos ht]
            rfl
          · rw [if_neg ht]
            rfl
        | none => rw [if_neg (by simp [PyVal.truthy])]; rfl
        | nan => rw [hsb] at hS; simp [PyVal.truthy] at hS
        | bool b =>
          rw [hsb] at hS
          simp only [PyVal.truthy, Bool.not_eq_true'] at hS
          rw [if_neg (by simp [PyVal.truthy, hS])]
          rfl
        | int n =>
          rw [hsb] at hS
          simp only [PyVal.truthy, Bool.not_eq_true'] at hS
          rw [if_neg (by simp [PyVal.truthy, hS])]
          rfl
        | str s =>
          rw [hsb] at hS
          simp only [PyVal.truthy, Bool.not_eq_true'] at hS
          rw [if_neg (by simp [PyVal.truthy, hS])]
          rfl
        | list xs =>
          rw [hsb] at hS
          simp only [PyVal.truthy, Bool.not_eq_true'] at hS
          rw [if_neg (by simp [PyVal.truthy, hS])]
          rfl
      | none => simp [sbColorOk] at hS
      | nan => simp [sbColorOk] at hS
      | bool b => simp [sbColorOk] at hS
      | int n => simp [sbColorOk] at hS
      | str s => simp [sbColorOk] at hS
      | list xs => simp [sbColorOk] at hS
    | none => rw [had] at hA; cases hA
    | nan => rw [had] at hA; cases hA
    | bool b => rw [had] at hA; cases hA
    | int n => rw [had] at hA; cases hA
    | str s => rw [had] at hA; cases hA
    | list xs => rw [had] at hA; cases hA
  | none => simp [allianceColorOk] at hA
  | nan => simp [allianceColorOk] at hA
  | bool b => simp [allianceColorOk] at hA
  | int n => simp [allianceColorOk] at hA
  | str s => simp [allianceColorOk] at hA
  | list xs => simp [allianceColorOk] at hA

theorem process_match_isOk (m : PyDict) (h : process_match_safeShape m = true) :
    exOk (process_match m) = true := by
  unfold process_match
  by_cases hg :
      (isNoneVal (matchGetD m "alliances") || isNoneVal (matchGetD m "score_breakdown")) = true
  · rw [if_pos hg]
    rfl
  · rw [if_neg hg]
    unfold process_match_safeShape at h
    simp only [Bool.or_eq_true] at h hg
    have hconj :
        (allianceColorOk (matchGetD m "alliances") "red" &&
         allianceColorOk (matchGetD m "alliances") "blue" &&
         sbColorOk (matchGetD m "score_breakdown") "red" &&
         sbColorOk (matchGetD m "score_breakdown") "blue") = true := by
      cases h with
      | inl h12 => exact absurd h12 hg
      | inr h3 => exact h3
    simp only [Bool.and_eq_true] at hconj
    dsimp only
    have hred := processAlliance_isOk (commonOf m) hconj.1.1.1 hconj.1.2
    cases hr : processAlliance (commonOf m) (matchGetD m "alliances")
        (matchGetD m "score_breakdown") "red" with
    | error e => rw [hr] at hred; simp [exOk] at hred
    | ok r =>
      dsimp only
      have hblue := processAlliance_isOk (commonOf m) hconj.1.1.2 hconj.2
      cases hb : processAlliance (commonOf m) (matchGetD m "alliances")
          (matchGetD m "score_breakdown") "blue" with
      | error e => rw [hb] at hblue; simp [exOk] at hblue
      | ok b => rfl

theorem contains_eq_true_of_mem {l : List String} {a : String} (h : a ∈ l) :
    l.contains a = true := by
  simpa [List.contains] using h

theorem reorder_cols_pinned (cols : List String) (hnd : cols.Nodup)
    (h1 : "event_key" ∈ cols) (h2 : "match" ∈ cols) (h3 : "winning_alliance" ∈ cols) :
    reorder_cols cols =
      "event_key" :: "match" :: "winning_alliance" ::
        cols.filter (fun c => !(["event_key", "match", "winning_alliance"].contains c)) := by
  unfold reorder_cols
  simp only [List.foldl_cons, List.foldl_nil]
  rw [if_pos (contains_eq_true_of_mem h1)]
  dsimp only
  rw [if_pos (contains_eq_true_of_mem (List.mem_erase_of_ne (by decide) |>.mpr h2))]
  dsimp only
  rw [if_pos (contains_eq_true_of_mem
    ((List.mem_erase_of_ne (by decide)).mpr ((List.mem_erase_of_ne (by decide)).mpr h3)))]
  dsimp only
  have hnd1 : (cols.erase "event_key").Nodup := hnd.erase _
  have hnd2 : ((cols.erase "event_key").erase "match").Nodup := hnd1.erase _
  rw [hnd2.erase_eq_filter "winning_alliance", hnd1.erase_eq_filter "match",
      hnd.erase_eq_filter "event_key", List.filter_filter, List.filter_filter]
  simp only [List.cons_append, List.nil_append, List.cons.injEq, true_and]
  apply List.filter_congr
  intro c _
  simp only [List.contains_cons, Bool.not_or]
  cases hc1 : c == "event_key" <;> cases hc2 : c == "match" <;>
    cases hc3 : c == "winning_alliance" <;>
      simp_all [bne, Bool.not_eq_true', beq_iff_eq]

theorem hasDupList_eq_false_iff (l : List (PyVal × PyVal × PyVal)) :
    hasDupList l = false ↔ l.Nodup := by
  induction l with
  | nil => simp [hasDupList]
  | cons x xs ih =>
    simp only [hasDupList, Bool.or_eq_false_iff, List.nodup_cons, ih]
    constructor
    · rintro ⟨hc, hn⟩
      refine ⟨fun hm => ?_, hn⟩
      rw [List.contains_eq_any_beq] at hc
      rw [List.any_eq_false] at hc
      exact absurd (by simp : (x == x) = true) (by simpa using hc x hm)
    · rintro ⟨hm, hn⟩
      refine ⟨?_, hn⟩
      rw [List.contains_eq_any_beq, List.any_eq_false]
      intro y hy
      simp only [Bool.not_eq_true, beq_eq_false_iff_ne]
      intro he
      exact hm (he ▸ hy)

/-- C2: for every match mapping in which `alliances` is null or absent, or
`score_breakdown` is null or absent, `process_match` returns the empty row
sequence normally (no exception, nothing recorded as an error). -/
theorem C2_incomplete_match_yields_no_rows (m : PyDict)
    (h : matchGetD m "alliances" = PyVal.none ∨ matchGetD m "score_breakdown" = PyVal.none) :
    process_match m = Except.ok [] := by
  unfold process_match
  rw [if_pos ?hc]
  case hc =>
    cases h with
    | inl h1 => rw [h1]; rfl
    | inr h2 => rw [h2]; simp [isNoneVal]

/-- C2 witness: the empty mapping lacks both keys and flattens to zero rows. -/
theorem C2_witness :
    (matchGetD ([] : PyDict) "alliances" = PyVal.none ∨
      matchGetD ([] : PyDict) "score_breakdown" = PyVal.none) ∧
    process_match ([] : PyDict) = Except.ok [] :=
  ⟨Or.inl rfl, C2_incomplete_match_yields_no_rows [] (Or.inl rfl)⟩

/-- C1 counterexample: a match with `alliances` and `score_breakdown` both
present and non-null for which `process_match` returns two rows of which
none carries `alliance = "red"` — the red row's `alliance` cell was
overwritten by a score-breakdown key of the same name. -/
theorem C1_counterexample :
    isCompleteMatch allianceOverwriteMatch = true ∧
    exOk (process_match allianceOverwriteMatch) = true ∧
    (pmRows allianceOverwriteMatch).length = 2 ∧
    ((pmRows allianceOverwriteMatch).all
      (fun r => !(matchGetD r "alliance" == PyVal.str "red"))) = true :=
  ⟨rfl, rfl, rfl, rfl⟩

/-- C1 (amended): for every complete match mapping on which `process_match`
returns normally and whose per-alliance score breakdowns do not flatten to a
key literally named `alliance`, the result is exactly two rows, the first
with `alliance = "red"` and the second with `alliance = "blue"`. -/
theorem C1_complete_match_two_rows (m : PyDict) (rows : List Row)
    (hc : isCompleteMatch m = true)
    (hok : process_match m = Except.ok rows)
    (hred : sbNoKey (matchGetD m "score_breakdown") "red" "alliance" = true)
    (hblue : sbNoKey (matchGetD m "score_breakdown") "blue" "alliance" = true) :
    rows.length = 2 ∧
      rows.map (fun r => dictGet r "alliance") =
        [some (PyVal.str "red"), some (PyVal.str "blue")] := by
  obtain ⟨r, b, hr, hb, hrows⟩ := process_match_ok_elim hc hok
  subst hrows
  refine ⟨rfl, ?_⟩
  rw [List.map_cons, List.map_cons, List.map_nil,
      processAlliance_alliance_get hr hred, processAlliance_alliance_get hb hblue]

/-- C1 witness: the end-to-end example match satisfies every hypothesis and
yields the two rows, red first, blue second. -/
theorem C1_witness :
    isCompleteMatch exampleMatch = true ∧
    process_match exampleMatch = Except.ok (pmRows exampleMatch) ∧
    sbNoKey (matchGetD exampleMatch "score_breakdown") "red" "alliance" = true ∧
    sbNoKey (matchGetD exampleMatch "score_breakdown") "blue" "alliance" = true ∧
    ((pmRows exampleMatch).length = 2 ∧
      (pmRows exampleMatch).map (fun r => dictGet r "alliance") =
        [some (PyVal.str "red"), some (PyVal.str "blue")]) :=
  ⟨rfl, rfl, rfl, rfl,
   C1_complete_match_two_rows exampleMatch (pmRows exampleMatch) rfl rfl rfl rfl⟩

/-- C4 counterexample: `process_match` raises `AttributeError` on a mapping
whose `alliances` value is a non-dict, although both guarded keys are
present and non-null. -/
theorem C4_counterexample :
    isCompleteMatch nonDictAlliancesMatch = true ∧
    process_match nonDictAlliancesMatch = Except.error PyErr.attributeError :=
  ⟨rfl, rfl⟩

/-- C4 (amended): `process_match` terminates normally whenever the match is
incomplete (guard fires) or `alliances` and `score_breakdown` are dicts whose
per-colour entries are dicts (score-breakdown entries may also be falsy);
within that shape, malformed team keys and missing fields only degrade to
null cells, never raise. -/
theorem C4_safe_shape_never_raises (m : PyDict) (h : process_match_safeShape m = true) :
    exOk (process_match m) = true :=
  process_match_isOk m h

/-- C4 witness: a match with a non-string team key and an unparsable team-key
string still flattens normally, and the malformed slots degrade to null. -/
theorem C4_witness :
    process_match_safeShape malformedTeamKeysMatch = true ∧
    exOk (process_match malformedTeamKeysMatch) = true ∧
    ((pmRows malformedTeamKeysMatch).all
      (fun r => matchGetD r "bot1" == PyVal.none && matchGetD r "bot2" == PyVal.none)) = true :=
  ⟨rfl, C4_safe_shape_never_raises malformedTeamKeysMatch rfl, rfl⟩

/-- C10: in every row of a complete match the flattened score-breakdown
bindings are merged last: any key `k` the alliance's breakdown flattens to —
including names that collide with already-set cells such as `alliance` —
ends up holding the flattened value in that alliance's row (position 0 for
red, 1 for blue). -/
theorem C10_score_breakdown_merged_last (m : PyDict) (rows : List Row) (ses sb : PyDict)
    (color : String) (i : Nat) (k : String) (v : PyVal)
    (hc : isCompleteMatch m = true)
    (hok : process_match m = Except.ok rows)
    (hcolor : (color = "red" ∧ i = 0) ∨ (color = "blue" ∧ i = 1))
    (hS : matchGetD m "score_breakdown" = PyVal.dict ses)
    (hsb : (dictGet ses color).getD (PyVal.dict []) = PyVal.dict sb)
    (hget : dictGet (process_score_breakdown sb) k = some v) :
    dictGet (rows.getD i []) k = some v := by
  obtain ⟨r, b, hr, hb, hrows⟩ := process_match_ok_elim hc hok
  subst hrows
  cases hcolor with
  | inl hci =>
    obtain ⟨hcol, hi⟩ := hci
    subst hcol
    subst hi
    exact processAlliance_sb_overwrite hr hS hsb hget
  | inr hci =>
    obtain ⟨hcol, hi⟩ := hci
    subst hcol
    subst hi
    exact processAlliance_sb_overwrite hb hS hsb hget

/-- C10 witness: the red score breakdown of `allianceOverwriteMatch` flattens
to an `alliance` binding, and in the produced red row that binding has
silently overwritten the `alliance = "red"` cell set earlier. -/
theorem C10_witness :
    isCompleteMatch allianceOverwriteMatch = true ∧
    process_match allianceOverwriteMatch = Except.ok (pmRows allianceOverwriteMatch) ∧
    matchGetD allianceOverwriteMatch "score_breakdown" =
      PyVal.dict [("red", PyVal.dict [("alliance", PyVal.str "overwritten")])] ∧
    (dictGet [("red", PyVal.dict [("alliance", PyVal.str "overwritten")])] "red").getD
      (PyVal.dict []) = PyVal.dict [("alliance", PyVal.str "overwritten")] ∧
    dictGet (process_score_breakdown [("alliance", PyVal.str "overwritten")]) "alliance" =
      some (PyVal.str "overwritten") ∧
    dictGet ((pmRows allianceOverwriteMatch).getD 0 []) "alliance" =
      some (PyVal.str "overwritten") :=
  ⟨rfl, rfl, rfl, rfl, rfl,
   C10_score_breakdown_merged_last allianceOverwriteMatch (pmRows allianceOverwriteMatch)
     [("red", PyVal.dict [("alliance", PyVal.str "overwritten")])]
     [("alliance", PyVal.str "overwritten")] "red" 0 "alliance"
     (PyVal.str "overwritten") rfl rfl (Or.inl ⟨rfl, rfl⟩) rfl rfl rfl⟩

theorem hasKey_buildCommonFold (k : String) (entries : PyDict) :
    ∀ (acc : PyDict), hasKey entries k = false → hasKey acc k = false →
      hasKey (entries.foldl
        (fun cd kv =>
          if IGNORE_TOP_KEYS.contains kv.1 || kv.1 == "alliances" || kv.1 == "score_breakdown"
          then cd else dictSet cd kv.1 kv.2) acc) k = false := by
  induction entries with
  | nil => intro acc _ hacc; exact hacc
  | cons kv rest ih =>
    intro acc hm hacc
    simp only [hasKey, List.any_cons, Bool.or_eq_false_iff] at hm
    simp only [List.foldl_cons]
    apply ih _ (by simp [hasKey, hm.2])
    by_cases hskip :
        (IGNORE_TOP_KEYS.contains kv.1 || kv.1 == "alliances" || kv.1 == "score_breakdown") = true
    · rw [if_pos hskip]
      exact hacc
    · rw [if_neg hskip, hasKey_dictSet]
      simp [hacc, hm.1]

theorem hasKey_commonOf_totalPoints {m : PyDict} (hm : hasKey m "totalPoints" = false) :
    hasKey (commonOf m) "totalPoints" = false := by
  unfold commonOf buildCommon
  dsimp only
  rw [hasKey_dictSet]
  rw [hasKey_buildCommonFold "totalPoints" m [] hm rfl]
  rfl

theorem rowChain_hasKey (common : Row) (color : String) (b1 b2 b3 sc : PyVal) (k : String)
    (hk1 : ("alliance" == k) = false) (hk2 : ("bot1" == k) = false)
    (hk3 : ("bot2" == k) = false) (hk4 : ("bot3" == k) = false)
    (hk5 : ("alliance_score" == k) = false)
    (hc : hasKey common k = false) :
    hasKey (dictSet (dictSet (dictSet (dictSet (dictSet common "alliance" (PyVal.str color))
      "bot1" b1) "bot2" b2) "bot3" b3) "alliance_score" sc) k = false := by
  rw [hasKey_dictSet, hasKey_dictSet, hasKey_dictSet, hasKey_dictSet, hasKey_dictSet]
  simp [hk1, hk2, hk3, hk4, hk5, hc]

theorem processAlliance_no_totalPoints {common : Row} {A S : PyVal} {color : String} {row : Row}
    (h : processAlliance common A S color = Except.ok row)
    (hc : hasKey common "totalPoints" = false) :
    hasKey row "totalPoints" = false := by
  unfold processAlliance at h
  cases hA : pyGet A color (PyVal.dict []) with
  | error e => rw [hA] at h; cases h
  | ok ad =>
    rw [hA] at h
    dsimp only at h
    cases hTK : pyGet ad "team_keys" (PyVal.list []) with
    | error e => rw [hTK] at h; cases h
    | ok tk =>
      rw [hTK] at h
      dsimp only at h
      cases hSC : pyGet ad "score" PyVal.none with
      | error e => rw [hSC] at h; cases h
      | ok sc =>
        rw [hSC] at h
        dsimp only at h
        cases hSB : pyGet S color (PyVal.dict []) with
        | error e => rw [hSB] at h; cases h
        | ok sb =>
          rw [hSB] at h
          dsimp only at h
          have hchain := rowChain_hasKey common color
            (extractBot tk 0) (extractBot tk 1) (extractBot tk 2) sc "totalPoints"
            rfl rfl rfl rfl rfl hc
          by_cases ht : sb.truthy = true
          · rw [if_pos ht] at h
            cases sb with
            | dict es =>
              injection h with h2
              subst h2
              rw [hasKey_dictUpdate, hchain,
                  hasKey_process_score_breakdown_totalPoints]
              rfl
            | none => cases h
            | nan => cases h
            | bool b => cases h
            | int n => cases h
            | str s => cases h
            | list xs => cases h
          · rw [if_neg ht] at h
            injection h with h2
            subst h2
            exact hchain

/-- C5 counterexample: a match that itself carries a top-level `totalPoints`
key is copied into the common data, so both produced rows contain a
`totalPoints` column. -/
theorem C5_counterexample :
    exOk (process_match topLevelTotalPointsMatch) = true ∧
    (pmRows topLevelTotalPointsMatch).length = 2 ∧
    ((pmRows topLevelTotalPointsMatch).all (fun r => hasKey r "totalPoints")) = true :=
  ⟨rfl, rfl, rfl⟩

/-- C5 (amended): provided the raw match mapping does not itself carry a
top-level `totalPoints` key, no row produced by `process_match` contains a
`totalPoints` column — the flattener only strips `totalPoints` inside each
alliance's score breakdown. -/
theorem C5_no_totalPoints_column (m : PyDict) (rows : List Row) (r : Row)
    (hm : hasKey m "totalPoints" = false)
    (hok : process_match m = Except.ok rows)
    (hr : r ∈ rows) :
    hasKey r "totalPoints" = false := by
  by_cases hc : isCompleteMatch m = true
  · obtain ⟨r1, b1, h1, h2, hrows⟩ := process_match_ok_elim hc hok
    subst hrows
    have hcom := hasKey_commonOf_totalPoints hm
    cases hr with
    | head => exact processAlliance_no_totalPoints h1 hcom
    | tail _ hr2 =>
      cases hr2 with
      | head => exact processAlliance_no_totalPoints h2 hcom
      | tail _ hr3 => cases hr3
  · have hguard : (isNoneVal (matchGetD m "alliances") ||
        isNoneVal (matchGetD m "score_breakdown")) = true := by
      cases hg : (isNoneVal (matchGetD m "alliances") ||
          isNoneVal (matchGetD m "score_breakdown")) with
      | true => rfl
      | false => exact absurd (by simp [isCompleteMatch, hg]) hc
    unfold process_match at hok
    rw [if_pos hguard] at hok
    injection hok with h2
    rw [← h2] at hr
    cases hr

/-- C5 witness: the end-to-end example match (whose red breakdown does carry
`totalPoints`) yields rows free of any `totalPoints` column. -/
theorem C5_witness :
    hasKey exampleMatch "totalPoints" = false ∧
    process_match exampleMatch = Except.ok (pmRows exampleMatch) ∧
    (pmRows exampleMatch).getD 0 [] ∈ pmRows exampleMatch ∧
    hasKey ((pmRows exampleMatch).getD 0 []) "totalPoints" = false :=
  ⟨rfl, rfl, by decide,
   C5_no_totalPoints_column exampleMatch (pmRows exampleMatch)
     ((pmRows exampleMatch).getD 0 []) rfl rfl (by decide)⟩

/-- C6: when exactly one match in the fetched list makes the flattener raise
(everything before and after it flattens normally), the per-match loop still
returns every row contributed by the other matches, in order, and records
exactly one error, carrying the offending match's index. -/
theorem C6_single_bad_match_isolated (pre post : List PyVal) (bad : PyVal)
    (hpre : (pre.all (fun m => exOk (process_match_val m))) = true)
    (hpost : (post.all (fun m => exOk (process_match_val m))) = true)
    (hbad : exOk (process_match_val bad) = false) :
    (fetch_event_matches_rows (pre ++ bad :: post)).fst =
      pre.flatMap okRows ++ post.flatMap okRows ∧
    (fetch_event_matches_rows (pre ++ bad :: post)).snd.map (fun er => er.index) =
      [pre.length] := by
  cases hb : process_match_val bad with
  | ok rows => rw [hb] at hbad; simp [exOk] at hbad
  | error e =>
    rw [fetch_rows_one_bad pre post bad e hpre hpost hb]
    exact ⟨rfl, rfl⟩

/-- C6 witness: a list holding one good match, one non-mapping entry (the
flattener raises on it), and another good match. -/
theorem C6_witness :
    (([exampleMatch].map PyVal.dict).all (fun m => exOk (process_match_val m))) = true ∧
    (([allianceOverwriteMatch].map PyVal.dict).all
      (fun m => exOk (process_match_val m))) = true ∧
    exOk (process_match_val (PyVal.str "oops")) = false ∧
    ((fetch_event_matches_rows
        ([exampleMatch].map PyVal.dict ++ PyVal.str "oops" ::
          [allianceOverwriteMatch].map PyVal.dict)).fst =
      ([exampleMatch].map PyVal.dict).flatMap okRows ++
        ([allianceOverwriteMatch].map PyVal.dict).flatMap okRows ∧
     (fetch_event_matches_rows
        ([exampleMatch].map PyVal.dict ++ PyVal.str "oops" ::
          [allianceOverwriteMatch].map PyVal.dict)).snd.map (fun er => er.index) =
      [([exampleMatch].map PyVal.dict).length]) :=
  ⟨rfl, rfl, rfl,
   C6_single_bad_match_isolated ([exampleMatch].map PyVal.dict)
     ([allianceOverwriteMatch].map PyVal.dict) (PyVal.str "oops") rfl rfl rfl⟩

/-- C3 counterexample: with an existing dataset that has an `event_key`
column and a non-empty incoming batch that lacks one, Upsert reconciliation
raises `KeyError` instead of producing the claimed union. -/
theorem C3_counterexample :
    noEventKeyBatch.rows.isEmpty = false ∧
    update_file (some tinyExistingDf) noEventKeyBatch "update" =
      Except.error PdErr.keyError :=
  ⟨rfl, rfl⟩

/-- C3 (amended): for every existing dataset and non-empty incoming batch
that both carry an `event_key` column, Upsert reconciliation returns
normally, and its rows are exactly the existing rows whose event identifier
does not occur among the incoming rows' event identifiers, followed by all
incoming rows unchanged. -/
theorem C3_upsert_event_scoped (ex nd : DataFrame)
    (hexc : ex.cols.contains "event_key" = true)
    (hndc : nd.cols.contains "event_key" = true)
    (_hne : nd.rows.isEmpty = false) :
    exOk (update_file (some ex) nd "update") = true ∧
    dfRows (update_file (some ex) nd "update") =
      ex.rows.filter (fun r => !((eventKeys nd.rows).contains (eventKeyOf r))) ++ nd.rows := by
  rw [update_file_update_ok ex nd hexc hndc]
  exact ⟨rfl, rfl⟩

/-- C3 witness: one existing event is re-delivered, the other kept. -/
theorem C3_witness :
    (DataFrame.ofRecords
      [[("event_key", PyVal.str "A"), ("match", PyVal.str "qm 1")],
       [("event_key", PyVal.str "B"), ("match", PyVal.str "qm 1")]]).cols.contains
        "event_key" = true ∧
    (DataFrame.ofRecords
      [[("event_key", PyVal.str "A"), ("match", PyVal.str "qm 2")]]).cols.contains
        "event_key" = true ∧
    (DataFrame.ofRecords
      [[("event_key", PyVal.str "A"), ("match", PyVal.str "qm 2")]]).rows.isEmpty = false ∧
    (exOk (update_file
        (some (DataFrame.ofRecords
          [[("event_key", PyVal.str "A"), ("match", PyVal.str "qm 1")],
           [("event_key", PyVal.str "B"), ("match", PyVal.str "qm 1")]]))
        (DataFrame.ofRecords [[("event_key", PyVal.str "A"), ("match", PyVal.str "qm 2")]])
        "update") = true ∧
     dfRows (update_file
        (some (DataFrame.ofRecords
          [[("event_key", PyVal.str "A"), ("match", PyVal.str "qm 1")],
           [("event_key", PyVal.str "B"), ("match", PyVal.str "qm 1")]]))
        (DataFrame.ofRecords [[("event_key", PyVal.str "A"), ("match", PyVal.str "qm 2")]])
        "update") =
      (DataFrame.ofRecords
        [[("event_key", PyVal.str "A"), ("match", PyVal.str "qm 1")],
         [("event_key", PyVal.str "B"), ("match", PyVal.str "qm 1")]]).rows.filter
          (fun r =>
            !((eventKeys (DataFrame.ofRecords
                [[("event_key", PyVal.str "A"), ("match", PyVal.str "qm 2")]]).rows).contains
              (eventKeyOf r))) ++
        (DataFrame.ofRecords
          [[("event_key", PyVal.str "A"), ("match", PyVal.str "qm 2")]]).rows) :=
  ⟨rfl, rfl, rfl,
   C3_upsert_event_scoped
     (DataFrame.ofRecords
       [[("event_key", PyVal.str "A"), ("match", PyVal.str "qm 1")],
        [("event_key", PyVal.str "B"), ("match", PyVal.str "qm 1")]])
     (DataFrame.ofRecords [[("event_key", PyVal.str "A"), ("match", PyVal.str "qm 2")]])
     rfl rfl rfl⟩

/-- C8 counterexample: Upsert with an empty incoming batch is not a no-op
returning the existing dataset — it raises `KeyError` (the empty frame has
no `event_key` column). -/
theorem C8_counterexample :
    update_file (some tinyExistingDf) (DataFrame.ofRecords []) "update" ≠
      Except.ok tinyExistingDf ∧
    update_file (some tinyExistingDf) (DataFrame.ofRecords []) "update" =
      Except.error PdErr.keyError := by
  refine ⟨?_, rfl⟩
  intro h
  rw [show update_file (some tinyExistingDf) (DataFrame.ofRecords []) "update" =
        Except.error PdErr.keyError from rfl] at h
  cases h

/-- C8 (amended): for every existing dataset, Upsert reconciliation with the
empty incoming batch raises `KeyError` (selecting `event_key` on the empty
frame fails); no reconciled dataset is produced.  The running program never
reaches this call: its callers skip reconciliation when a batch collected no
rows. -/
theorem C8_empty_upsert_raises (ex : DataFrame) :
    update_file (some ex) (DataFrame.ofRecords []) "update" =
      Except.error PdErr.keyError := by
  unfold update_file
  rw [if_neg (by simp)]
  dsimp only
  rw [show colValues (DataFrame.ofRecords []) "event_key" =
        Except.error PdErr.keyError from rfl]

/-- C9: whenever `event_key`, `match`, and `winning_alliance` are all among
a frame's (distinct) column labels, column reordering puts exactly those
three first, in that order, before any other column, keeps the remaining
columns in their original relative order, and leaves the records alone. -/
theorem C9_pinned_column_order (df : DataFrame)
    (hnd : df.cols.Nodup)
    (h1 : "event_key" ∈ df.cols) (h2 : "match" ∈ df.cols)
    (h3 : "winning_alliance" ∈ df.cols) :
    (reorder_columns df).cols =
      "event_key" :: "match" :: "winning_alliance" ::
        df.cols.filter (fun c => !(["event_key", "match", "winning_alliance"].contains c)) ∧
    (reorder_columns df).rows = df.rows :=
  ⟨reorder_cols_pinned df.cols hnd h1 h2 h3, rfl⟩

/-- C9 witness: a frame listing the pinned columns out of order. -/
theorem C9_witness :
    (["winning_alliance", "foo", "event_key", "match"] : List String).Nodup ∧
    "event_key" ∈ (["winning_alliance", "foo", "event_key", "match"] : List String) ∧
    "match" ∈ (["winning_alliance", "foo", "event_key", "match"] : List String) ∧
    "winning_alliance" ∈ (["winning_alliance", "foo", "event_key", "match"] : List String) ∧
    ((reorder_columns ⟨["winning_alliance", "foo", "event_key", "match"], []⟩).cols =
      "event_key" :: "match" :: "winning_alliance" ::
        (["winning_alliance", "foo", "event_key", "match"] : List String).filter
          (fun c => !(["event_key", "match", "winning_alliance"].contains c)) ∧
     (reorder_columns ⟨["winning_alliance", "foo", "event_key", "match"], []⟩).rows =
      ([] : List Row)) :=
  ⟨by decide, by decide, by decide, by decide,
   C9_pinned_column_order ⟨["winning_alliance", "foo", "event_key", "match"], []⟩
     (by decide) (by decide) (by decide) (by decide)⟩

/-- C7 counterexample: two semifinal matches differing only in `set_number`
collide on the derived `match` identifier; the batch pipeline produces them
without any error, and after Replace reconciliation the dataset holds two
rows with the same (event, match, alliance) triple. -/
theorem C7_counterexample :
    (fetch_event_matches_rows semifinalMatches).snd = [] ∧
    hasDupTriples (dfRows (update_file Option.none semifinalBatch "replace")) = true :=
  ⟨rfl, rfl⟩

/-- C7 (amended): reconciliation preserves triple-uniqueness rather than
establishing it: if neither the existing dataset nor the incoming batch
holds two rows sharing an (event, match, alliance) triple, the reconciled
dataset (either mode) does not either.  The pipeline itself can emit
duplicate triples (see the semifinal counterexample), because `set_number`
is excluded from the derived `match` identifier. -/
theorem C7_triple_uniqueness_preserved (fd : Option DataFrame) (nd : DataFrame)
    (mode : String) (df : DataFrame)
    (hex : hasDupTriples (existingRows fd) = false)
    (hnd : hasDupTriples nd.rows = false)
    (h : update_file fd nd mode = Except.ok df) :
    hasDupTriples df.rows = false := by
  rw [hasDupTriples, hasDupList_eq_false_iff] at hex hnd ⊢
  cases update_file_ok_rows fd nd mode df h with
  | inl hrows => rw [hrows]; exact hnd
  | inr hrest =>
    obtain ⟨ex, hfd, hrows⟩ := hrest
    subst hfd
    rw [hrows, List.map_append, List.nodup_append]
    refine ⟨?_, hnd, ?_⟩
    · exact ((List.filter_sublist ex.rows).map tripleOf).nodup hex
    · intro a ha hb
      obtain ⟨r, hr, hra⟩ := List.mem_map.mp ha
      obtain ⟨r2, hr2, hrb⟩ := List.mem_map.mp hb
      obtain ⟨hrex, hpred⟩ := List.mem_filter.mp hr
      have hek : eventKeyOf r = eventKeyOf r2 := by
        have := hra.trans hrb.symm
        exact congrArg Prod.fst this
      have hcontains : (eventKeys nd.rows).contains (eventKeyOf r) = true := by
        rw [hek]
        have : eventKeyOf r2 ∈ eventKeys nd.rows := List.mem_map.mpr ⟨r2, hr2, rfl⟩
        rw [List.contains_eq_any_beq, List.any_eq_true]
        exact ⟨eventKeyOf r2, this, by simp⟩
      rw [hcontains] at hpred
      cases hpred

/-- C7 witness: duplicate-free existing rows and a duplicate-free batch
reconcile (Replace) to a duplicate-free dataset. -/
theorem C7_witness :
    hasDupTriples (existingRows (some tinyExistingDf)) = false ∧
    hasDupTriples smallBatch.rows = false ∧
    update_file (some tinyExistingDf) smallBatch "replace" =
      Except.ok (reorder_columns smallBatch) ∧
    hasDupTriples (reorder_columns smallBatch).rows = false :=
  ⟨rfl, rfl, rfl,
   C7_triple_uniqueness_preserved (some tinyExistingDf) smallBatch "replace"
     (reorder_columns smallBatch) rfl rfl rfl⟩
